import Mathlib

/-!
Verification development for the BIDS metadata manager
(`src/bids_metadata_manager.py`).

The Python program mutates JSON descriptor records (Python dicts), classifies
subject directory names with a regular-expression search, renames functional
files, and drives an external slice-trimming tool.  We embed the relevant
parts shallowly:

* a descriptor record is an association list from field names to JSON values,
  with Python-dict lookup/assignment/deletion semantics (unique keys; an
  assignment updates the first matching key in place, otherwise appends);
* the three functional mutator rules `modify_phase`,
  `modify_func_slice_timing` and `modify_func_total_readout_time` are
  translated branch by branch;
* `meet_the_pattern` models `re.search` of the fixed-width pattern
  `re.escape(prefix) + r"\d{digit}" + re.escape(suffix)` over a name:
  the pattern matches at some starting position of the name;
* the renaming step and the slice-count decision of
  `execute_func_slicing` are translated as per-file / per-count functions;
* the two descriptor sweeps (`manipulate_phase_encoding` and the functional
  part of `manipulate_anatfuncfmap`) are modelled over a list of files, each
  file being either a parsed record or a malformed file whose load raises;
  the Python loops contain no `try`/`except`, so an exception propagates,
  which the embedding renders as short-circuiting `Except`;
* `slice_func_49to38` is modelled over an environment recording whether
  `fslroi` resolves on the search path and which exit code the tool returns.
-/

/-- A JSON value as used by the descriptor records of this program:
a string, a number, or an array of numbers (the `SliceTiming` list).
Numbers are modelled as rationals; every literal in the source is a finite
decimal, hence exact. -/
inductive JValue where
  | jstr : String → JValue
  | jnum : ℚ → JValue
  | jarr : List ℚ → JValue
deriving DecidableEq

/-- A descriptor record: a Python dict, embedded as an association list.
A structurally valid dict has pairwise distinct keys (`RecordWF`). -/
abbrev Record := List (String × JValue)

/-- Python-dict key membership test (`k in data`). -/
def dictContains : Record → String → Bool
  | [], _ => false
  | (k1, _) :: t, k => k1 == k || dictContains t k

/-- Python-dict lookup (`data[k]`), returning `none` when the key is absent. -/
def dictGet : Record → String → Option JValue
  | [], _ => none
  | (k1, v1) :: t, k => if k1 == k then some v1 else dictGet t k

/-- Python-dict assignment (`data[k] = v`): update the first entry carrying
the key in place, otherwise append the new entry at the end. -/
def dictSet : Record → String → JValue → Record
  | [], k, v => [(k, v)]
  | (k1, v1) :: t, k, v => if k1 == k then (k1, v) :: t else (k1, v1) :: dictSet t k v

/-- Python-dict deletion (`del data[k]`): remove the first entry carrying the
key (on a structurally valid dict the key occurs at most once). -/
def dictDel : Record → String → Record
  | [], _ => []
  | (k1, v1) :: t, k => if k1 == k then t else (k1, v1) :: dictDel t k

/-- Structural well-formedness of a record as a Python dict: keys are
pairwise distinct. -/
abbrev RecordWF (data : Record) : Prop := (data.map Prod.fst).Nodup

/-- Mutator rule 1, `BidsMetadataModifier.modify_phase`:
if `PhaseEncodingAxis` is present, copy its value to
`PhaseEncodingDirection` and delete `PhaseEncodingAxis`; otherwise
(the source writes `elif "PhaseEncodingAxis" not in data`, the complement of
the first branch) set `PhaseEncodingDirection` to the literal string `j`. -/
def modify_phase (data : Record) : Record :=
  match dictGet data "PhaseEncodingAxis" with
  | some key => dictDel (dictSet data "PhaseEncodingDirection" key) "PhaseEncodingAxis"
  | none => dictSet data "PhaseEncodingDirection" (JValue.jstr "j")

/-- The literal 38-entry slice-timing table of
`BidsMetadataModifier.modify_func_slice_timing`. -/
def sliceTimingDefault : List ℚ :=
  [0, 0.065, 0.1325, 0.1975, 0.2625, 0.3275, 0.3925, 0.4575, 0.5225, 0.5875,
   0.6525, 0.72, 0.785, 0.85, 0.915, 0.98, 1.045, 1.11, 1.175, 1.24,
   1.305, 1.3725, 1.4375, 1.5025, 1.5675, 1.6325, 1.6975, 1.7625, 1.8275,
   1.8925, 1.9575, 2.025, 2.09, 2.155, 2.22, 2.285, 2.35, 2.415]

/-- Mutator rule 2, `BidsMetadataModifier.modify_func_slice_timing`:
if `SliceTiming` is present the record is returned unchanged (the source
prints an informational notice); otherwise `SliceTiming` is set to the
fixed table.  The `sub` argument is used only in the printed notice. -/
def modify_func_slice_timing (data : Record) (sub : String) : Record :=
  if dictContains data "SliceTiming" = true then
    data
  else
    dictSet data "SliceTiming" (JValue.jarr sliceTimingDefault)

/-- Mutator rule 3, `BidsMetadataModifier.modify_func_total_readout_time`:
if `TotalReadoutTime` is present with value `0.0377995` the record is
returned unchanged (a notice is printed); else if the field is absent it is
set to `0.0377995`; in the remaining case (present with a different value)
the record is returned unchanged.  `sub` is used only in the notice. -/
def modify_func_total_readout_time (data : Record) (sub : String) : Record :=
  if dictContains data "TotalReadoutTime" = true ∧
      dictGet data "TotalReadoutTime" = some (JValue.jnum 0.0377995) then
    data
  else if dictContains data "TotalReadoutTime" = false then
    dictSet data "TotalReadoutTime" (JValue.jnum 0.0377995)
  else
    data

/-- Mutator rule 4, `BidsMetadataModifier.modify_fmap_intendfor`: both
branches of the source assign the same literal, so `IntendedFor` is always
overwritten. -/
def modify_fmap_intendfor (data : Record) (sub : String) : Record :=
  if dictContains data "IntendedFor" = false then
    dictSet data "IntendedFor" (JValue.jstr ("func/" ++ sub ++ "_task-rest_bold.nii.gz"))
  else
    dictSet data "IntendedFor" (JValue.jstr ("func/" ++ sub ++ "_task-rest_bold.nii.gz"))

/-- Mutator rule 5, `BidsMetadataModifier.modify_fmap_pd`: both branches of
each `if` assign the same literal, so `EchoTime1` and `EchoTime2` are always
overwritten. -/
def modify_fmap_pd (data : Record) : Record :=
  dictSet (dictSet data "EchoTime1" (JValue.jnum 0.00492)) "EchoTime2" (JValue.jnum 0.00738)

/-- Strip a literal pattern from the front of a character list: returns the
remainder when the list starts with the literal, `none` otherwise. -/
def dropLit : List Char → List Char → Option (List Char)
  | [], s => some s
  | _ :: _, [] => none
  | p :: ps, c :: cs => if p = c then dropLit ps cs else none

/-- Strip exactly `d` decimal digits from the front of a character list
(the regex atom `\d{d}`): returns the remainder on success. -/
def dropDigits : Nat → List Char → Option (List Char)
  | 0, s => some s
  | _ + 1, [] => none
  | d + 1, c :: cs => if c.isDigit then dropDigits d cs else none

/-- Does the fixed-width pattern `pre`, then `d` digits, then `suf` match at
the very start of `s` (possibly followed by further characters)? -/
def matchHere (pre : List Char) (d : Nat) (suf : List Char) (s : List Char) : Bool :=
  (((dropLit pre s).bind (dropDigits d)).bind (dropLit suf)).isSome

/-- Try the pattern at every starting position of `s`, as `re.search` does. -/
def searchFrom (pre : List Char) (d : Nat) (suf : List Char) : List Char → Bool
  | [] => matchHere pre d suf []
  | c :: t => matchHere pre d suf (c :: t) || searchFrom pre d suf t

/-- `WorkflowManager.meet_the_pattern`: the source builds the pattern
`re.escape(self.prefix) + r"\d{digit}" + re.escape(self.suffix)` and tests
it with `re.search(pattern, name)`, returning whether a match exists
anywhere in the name. -/
def meet_the_pattern (pre : List Char) (d : Nat) (suf : List Char) (name : List Char) : Bool :=
  searchFrom pre d suf name

/-- Modelled from the claim wording, for comparison with the source
behaviour: the entire name equals the pattern (prefix, then exactly `d`
digits, then the suffix, with nothing before or after). -/
def spec_full_match (pre : List Char) (d : Nat) (suf : List Char) (name : List Char) : Bool :=
  ((dropLit pre name).bind (dropDigits d)) == some suf

/-- Does the character list start with the given literal
(`str.startswith`)? -/
def startsWithL (pre s : List Char) : Bool := (dropLit pre s).isSome

/-- Does the character list end with the given literal (`str.endswith`)? -/
def endsWithL (suf s : List Char) : Bool := (dropLit suf.reverse s.reverse).isSome

/-- Per-file behaviour of `WorkflowManager.change_func_files_name` inside one
functional folder: files whose name starts with a dot are filtered out before
the loop; a file ending in `.nii.gz` is renamed to `sub ++ name ++ ".nii.gz"`;
else a file ending in `.json` is renamed to `sub ++ name ++ ".json"`; any
other file is not touched by the loop body.  The result is the new name, or
`none` when no rename happens. -/
def change_func_name (sub name file : List Char) : Option (List Char) :=
  if startsWithL (String.data ".") file then
    none
  else if endsWithL (String.data ".nii.gz") file then
    some (sub ++ name ++ String.data ".nii.gz")
  else if endsWithL (String.data ".json") file then
    some (sub ++ name ++ String.data ".json")
  else
    none

/-- The suffix argument `execute_func_slicing` passes to
`change_func_files_name`. -/
def taskRestBold : List Char := String.data "_task-rest_bold"

/-- Python truthiness of the value returned by `count_func_slice`:
`not slice_count` is true when the read failed (`None`) and also when the
count is the integer `0`. -/
def isFalsyCount : Option Nat → Bool
  | none => true
  | some n => n == 0

/-- What the per-subject branch of `execute_func_slicing` does after reading
the slice count. -/
inductive SliceAction where
  /-- The `if not slice_count` branch: print the failure message, touch
  nothing. -/
  | reportFailure : SliceAction
  /-- The `elif slice_count == 38` branch: `pass`. -/
  | noop : SliceAction
  /-- The `elif slice_count == 49` branch: call `slice_func_49to38`. -/
  | trim : SliceAction
  /-- No branch fires: the subject is skipped with no message and no
  mutation. -/
  | silent : SliceAction
deriving DecidableEq

/-- The branch selection of `execute_func_slicing` on one slice count:
`if not slice_count: ... elif slice_count == 38: pass
elif slice_count == 49: self.slice_func_49to38(...)` with no `else`. -/
def sliceDecision (slice_count : Option Nat) : SliceAction :=
  if isFalsyCount slice_count = true then
    SliceAction.reportFailure
  else if slice_count = some 38 then
    SliceAction.noop
  else if slice_count = some 49 then
    SliceAction.trim
  else
    SliceAction.silent

/-- The subject loop of `execute_func_slicing`: every subject in sequence is
given its decision; no branch interrupts the loop. -/
def execute_func_slicing (counts : List (String × Option Nat)) : List (String × SliceAction) :=
  counts.map (fun p => (p.1, sliceDecision p.2))

/-- A descriptor file as the sweeps see it: the content either parses to a
record or is malformed structured text, in which case `json.load` raises. -/
inductive JsonFile where
  | parsed : Record → JsonFile
  | malformed : String → JsonFile

/-- `JsonManipulation.load_json`: `json.load` returns the parsed record or
raises a parse error for malformed content. -/
def load_json : JsonFile → Except String Record
  | JsonFile.parsed r => Except.ok r
  | JsonFile.malformed msg => Except.error msg

/-- One file step of `manipulate_phase_encoding`: load, apply rule 1, save.
There is no `try`/`except` in the source, so a raised parse error
propagates. -/
def processPhaseJson (f : JsonFile) : Except String Record :=
  match load_json f with
  | Except.error e => Except.error e
  | Except.ok data => Except.ok (modify_phase data)

/-- The file loop of `WorkflowManager.manipulate_phase_encoding` over the
descriptor files in scope: each file is loaded, mutated by rule 1 and saved,
with no exception handler, so the first raised parse error aborts the
remaining iterations and escapes the method. -/
def manipulate_phase_encoding : List JsonFile → Except String (List Record)
  | [] => Except.ok []
  | f :: fs =>
    match processPhaseJson f with
    | Except.error e => Except.error e
    | Except.ok r =>
      match manipulate_phase_encoding fs with
      | Except.error e => Except.error e
      | Except.ok rs => Except.ok (r :: rs)

/-- One functional-descriptor step of `manipulate_anatfuncfmap`: load, apply
rule 2 then rule 3, save; again with no exception handler. -/
def processFuncJson (sub : String) (f : JsonFile) : Except String Record :=
  match load_json f with
  | Except.error e => Except.error e
  | Except.ok data =>
    Except.ok (modify_func_total_readout_time (modify_func_slice_timing data sub) sub)

/-- The functional-folder file loop of
`WorkflowManager.manipulate_anatfuncfmap` (the fmap branch has the same
handler-free structure): the first raised parse error aborts the remaining
iterations and escapes the method. -/
def manipulate_anatfuncfmap (sub : String) : List JsonFile → Except String (List Record)
  | [] => Except.ok []
  | f :: fs =>
    match processFuncJson sub f with
    | Except.error e => Except.error e
    | Except.ok r =>
      match manipulate_anatfuncfmap sub fs with
      | Except.error e => Except.error e
      | Except.ok rs => Except.ok (r :: rs)

/-- Environment of `WorkflowManager.slice_func_49to38`: whether
`shutil.which("fslroi")` resolves, and the exit code `subprocess.run` would
observe if the tool ran. -/
structure TrimEnv where
  fslroi_on_path : Bool
  tool_exit_code : Nat
deriving DecidableEq

/-- Observable outcome of a completed `slice_func_49to38` call. -/
structure TrimTrace where
  /-- The subprocess was started. -/
  tool_invoked : Bool
  /-- The `except subprocess.CalledProcessError` handler printed the error
  message. -/
  error_printed : Bool
deriving DecidableEq

/-- `WorkflowManager.slice_func_49to38`: when `fslroi` is not on the search
path an `EnvironmentError` is raised before the command is built or run;
otherwise the tool runs, and on a non-zero exit the `CalledProcessError` is
caught inside the method, printed, and the method returns normally. -/
def slice_func_49to38 (env : TrimEnv) : Except String TrimTrace :=
  if env.fslroi_on_path = false then
    Except.error "Error: fslroi command not found. Ensure FSL is installed and added to PATH."
  else if env.tool_exit_code ≠ 0 then
    Except.ok { tool_invoked := true, error_printed := true }
  else
    Except.ok { tool_invoked := true, error_printed := false }

/-! ## Association-list lemmas for the Python-dict embedding -/

theorem dictContains_eq_isSome (m : Record) (k : String) :
    dictContains m k = (dictGet m k).isSome := by
  induction m with
  | nil => rfl
  | cons p t ih =>
    obtain ⟨k1, v1⟩ := p
    by_cases h : k1 = k <;> simp [dictContains, dictGet, h, ih]

theorem dictContains_false_iff (m : Record) (k : String) :
    dictContains m k = false ↔ k ∉ m.map Prod.fst := by
  induction m with
  | nil => simp [dictContains]
  | cons p t ih =>
    obtain ⟨k1, v1⟩ := p
    simp only [dictContains, Bool.or_eq_false_iff, beq_eq_false_iff_ne, ne_eq, ih,
      List.map_cons, List.mem_cons, not_or]
    constructor
    · rintro ⟨hne, hmem⟩
      exact ⟨fun hh => hne hh.symm, hmem⟩
    · rintro ⟨hne, hmem⟩
      exact ⟨fun hh => hne hh.symm, hmem⟩

theorem dictGet_eq_none_of_contains_false (m : Record) (k : String)
    (h : dictContains m k = false) : dictGet m k = none := by
  cases hg : dictGet m k with
  | none => rfl
  | some v =>
    rw [dictContains_eq_isSome, hg] at h
    simp at h

theorem dictGet_dictSet_self (m : Record) (k : String) (v : JValue) :
    dictGet (dictSet m k v) k = some v := by
  induction m with
  | nil => simp [dictSet, dictGet]
  | cons p t ih =>
    obtain ⟨k1, v1⟩ := p
    by_cases h : k1 = k <;> simp [dictSet, dictGet, h, ih]

theorem dictGet_dictSet_ne (m : Record) (k k2 : String) (v : JValue) (h : k2 ≠ k) :
    dictGet (dictSet m k v) k2 = dictGet m k2 := by
  have hne : ¬ k = k2 := fun hh => h hh.symm
  induction m with
  | nil => simp [dictSet, dictGet, hne]
  | cons p t ih =>
    obtain ⟨k1, v1⟩ := p
    by_cases h1 : k1 = k
    · subst h1
      simp [dictSet, dictGet, hne]
    · by_cases h2 : k1 = k2 <;> simp [dictSet, dictGet, h1, h2, h, ih]

theorem dictGet_dictDel_ne (m : Record) (k k2 : String) (h : k2 ≠ k) :
    dictGet (dictDel m k) k2 = dictGet m k2 := by
  induction m with
  | nil => rfl
  | cons p t ih =>
    obtain ⟨k1, v1⟩ := p
    by_cases h1 : k1 = k
    · subst h1
      have hne : ¬ k1 = k2 := fun hh => h (hh.symm.trans rfl)
      simp [dictDel, dictGet, hne]
    · by_cases h2 : k1 = k2 <;> simp [dictDel, dictGet, h1, h2, h, ih]

theorem keys_dictSet_contains (m : Record) (k : String) (v : JValue)
    (h : dictContains m k = true) :
    (dictSet m k v).map Prod.fst = m.map Prod.fst := by
  induction m with
  | nil => simp [dictContains] at h
  | cons p t ih =>
    obtain ⟨k1, v1⟩ := p
    by_cases h1 : k1 = k
    · simp [dictSet, h1]
    · simp only [dictContains, Bool.or_eq_true, beq_iff_eq] at h
      rcases h with h | h
      · exact absurd h h1
      · simp [dictSet, h1, ih h]

theorem keys_dictSet_not_contains (m : Record) (k : String) (v : JValue)
    (h : dictContains m k = false) :
    (dictSet m k v).map Prod.fst = m.map Prod.fst ++ [k] := by
  induction m with
  | nil => rfl
  | cons p t ih =>
    obtain ⟨k1, v1⟩ := p
    simp only [dictContains, Bool.or_eq_false_iff, beq_eq_false_iff_ne, ne_eq] at h
    simp [dictSet, h.1, ih h.2]

theorem recordWF_dictSet (m : Record) (k : String) (v : JValue) (h : RecordWF m) :
    RecordWF (dictSet m k v) := by
  unfold RecordWF at h ⊢
  cases hc : dictContains m k with
  | true =>
    rw [keys_dictSet_contains m k v hc]
    exact h
  | false =>
    rw [keys_dictSet_not_contains m k v hc]
    rw [List.nodup_append]
    refine ⟨h, List.nodup_singleton k, ?_⟩
    intro x hx hx2
    simp only [List.mem_singleton] at hx2
    subst hx2
    exact (dictContains_false_iff m x).mp hc hx

theorem dictGet_dictDel_self (m : Record) (k : String) (h : RecordWF m) :
    dictGet (dictDel m k) k = none := by
  induction m with
  | nil => rfl
  | cons p t ih =>
    obtain ⟨k1, v1⟩ := p
    unfold RecordWF at h
    simp only [List.map_cons, List.nodup_cons] at h
    by_cases hk : k1 = k
    · subst hk
      simp only [dictDel, beq_self_eq_true, if_true]
      apply dictGet_eq_none_of_contains_false
      rw [dictContains_false_iff]
      exact h.1
    · simp [dictDel, dictGet, hk, ih h.2]

theorem dictSet_eq_self (m : Record) (k : String) (v : JValue) :
    dictSet m k v = m ↔ dictGet m k = some v := by
  induction m with
  | nil => simp [dictSet, dictGet]
  | cons p t ih =>
    obtain ⟨k1, v1⟩ := p
    by_cases h : k1 = k
    · subst h
      simp [dictSet, dictGet, eq_comm]
    · simp [dictSet, dictGet, h, ih]

theorem dictContains_dictSet_self (m : Record) (k : String) (v : JValue) :
    dictContains (dictSet m k v) k = true := by
  rw [dictContains_eq_isSome, dictGet_dictSet_self]
  rfl

theorem modify_phase_of_axis_none (m : Record)
    (hax : dictGet m "PhaseEncodingAxis" = none) :
    modify_phase m = dictSet m "PhaseEncodingDirection" (JValue.jstr "j") := by
  unfold modify_phase
  rw [hax]

theorem modify_phase_of_axis_some (m : Record) (v : JValue)
    (hax : dictGet m "PhaseEncodingAxis" = some v) :
    modify_phase m =
      dictDel (dictSet m "PhaseEncodingDirection" v) "PhaseEncodingAxis" := by
  unfold modify_phase
  rw [hax]

/-! ## Lemmas about the fixed-width pattern search -/

theorem dropLit_eq_some (p : List Char) (s r : List Char) :
    dropLit p s = some r ↔ s = p ++ r := by
  induction p generalizing s with
  | nil =>
    simp only [dropLit, Option.some.injEq, List.nil_append]
  | cons c p ih =>
    cases s with
    | nil => simp [dropLit]
    | cons a as =>
      by_cases h : c = a
      · subst h
        simp [dropLit, ih]
      · simp only [dropLit, if_neg h, List.cons_append, List.cons.injEq]
        constructor
        · intro hh
          exact Option.noConfusion hh
        · rintro ⟨hh, -⟩
          exact absurd hh.symm h

theorem dropDigits_eq_some (d : Nat) (s r : List Char) :
    dropDigits d s = some r ↔
      ∃ ds, s = ds ++ r ∧ ds.length = d ∧ ∀ c ∈ ds, c.isDigit = true := by
  induction d generalizing s with
  | zero =>
    simp only [dropDigits, Option.some.injEq]
    constructor
    · rintro rfl
      exact ⟨[], rfl, rfl, by simp⟩
    · rintro ⟨ds, rfl, hlen, -⟩
      rw [List.length_eq_zero] at hlen
      simp [hlen]
  | succ d ih =>
    cases s with
    | nil =>
      simp only [dropDigits]
      constructor
      · intro hh
        exact absurd hh (by simp)
      · rintro ⟨ds, heq, hlen, -⟩
        rcases List.append_eq_nil.mp heq.symm with ⟨rfl, -⟩
        simp at hlen
    | cons a as =>
      by_cases h : a.isDigit
      · simp only [dropDigits, if_pos h, ih]
        constructor
        · rintro ⟨ds, rfl, hlen, hdig⟩
          refine ⟨a :: ds, rfl, by simp [hlen], ?_⟩
          intro c hc
          rcases List.mem_cons.mp hc with rfl | hc
          · exact h
          · exact hdig c hc
        · rintro ⟨ds, heq, hlen, hdig⟩
          cases ds with
          | nil => simp at hlen
          | cons b bs =>
            simp only [List.cons_append, List.cons.injEq] at heq
            refine ⟨bs, heq.2, by simpa using hlen, ?_⟩
            intro c hc
            exact hdig c (List.mem_cons_of_mem b hc)
      · simp only [dropDigits, if_neg h]
        constructor
        · intro hh
          exact absurd hh (by simp)
        · rintro ⟨ds, heq, hlen, hdig⟩
          cases ds with
          | nil => simp at hlen
          | cons b bs =>
            simp only [List.cons_append, List.cons.injEq] at heq
            exact absurd (heq.1 ▸ hdig b (List.mem_cons_self b bs)) (by simpa using h)

theorem matchHere_eq_true (pre suf : List Char) (d : Nat) (s : List Char) :
    matchHere pre d suf s = true ↔
      ∃ s1 s2 b, dropLit pre s = some s1 ∧ dropDigits d s1 = some s2 ∧
        dropLit suf s2 = some b := by
  simp only [matchHere, Option.isSome_iff_exists, Option.bind_eq_some]
  constructor
  · rintro ⟨b, s2, ⟨s1, h1, h2⟩, h3⟩
    exact ⟨s1, s2, b, h1, h2, h3⟩
  · rintro ⟨s1, s2, b, h1, h2, h3⟩
    exact ⟨b, s2, ⟨s1, h1, h2⟩, h3⟩

theorem searchFrom_eq_true (pre suf : List Char) (d : Nat) (s : List Char) :
    searchFrom pre d suf s = true ↔
      ∃ a r, s = a ++ r ∧ matchHere pre d suf r = true := by
  induction s with
  | nil =>
    simp only [searchFrom]
    constructor
    · intro hh
      exact ⟨[], [], rfl, hh⟩
    · rintro ⟨a, r, heq, hr⟩
      rcases List.append_eq_nil.mp heq.symm with ⟨rfl, rfl⟩
      exact hr
  | cons c t ih =>
    simp only [searchFrom, Bool.or_eq_true, ih]
    constructor
    · rintro (hh | ⟨a, r, rfl, hr⟩)
      · exact ⟨[], c :: t, rfl, hh⟩
      · exact ⟨c :: a, r, rfl, hr⟩
    · rintro ⟨a, r, heq, hr⟩
      cases a with
      | nil =>
        left
        simp only [List.nil_append] at heq
        rw [← heq] at hr
        exact hr
      | cons x xs =>
        right
        simp only [List.cons_append, List.cons.injEq] at heq
        exact ⟨xs, r, heq.2, hr⟩

theorem spec_full_match_iff (pre suf name : List Char) (d : Nat) :
    spec_full_match pre d suf name = true ↔
      ∃ ds, name = pre ++ ds ++ suf ∧ ds.length = d ∧ ∀ c ∈ ds, c.isDigit = true := by
  simp only [spec_full_match, beq_iff_eq, Option.bind_eq_some]
  constructor
  · rintro ⟨s1, h1, h2⟩
    rw [dropLit_eq_some] at h1
    rw [dropDigits_eq_some] at h2
    obtain ⟨ds, rfl, hlen, hdig⟩ := h2
    exact ⟨ds, by rw [h1, List.append_assoc], hlen, hdig⟩
  · rintro ⟨ds, rfl, hlen, hdig⟩
    refine ⟨ds ++ suf, ?_, ?_⟩
    · rw [dropLit_eq_some, List.append_assoc]
    · rw [dropDigits_eq_some]
      exact ⟨ds, rfl, hlen, hdig⟩

/-! ## Claim theorems -/

/-- Claim C1, counterexample: the record with `PhaseEncodingDirection = "i"`
and no `PhaseEncodingAxis` is not returned unchanged by `modify_phase`:
the existing value is overwritten with the literal `"j"`. -/
theorem c1_counterexample :
    modify_phase [("PhaseEncodingDirection", JValue.jstr "i")] ≠
      [("PhaseEncodingDirection", JValue.jstr "i")] ∧
    dictGet (modify_phase [("PhaseEncodingDirection", JValue.jstr "i")])
      "PhaseEncodingDirection" = some (JValue.jstr "j") := by
  decide

/-- Claim C1, amended: for every record in which `PhaseEncodingAxis` is
absent and `PhaseEncodingDirection` is present, `modify_phase` sets
`PhaseEncodingDirection` to the literal `"j"`, and the record is returned
unchanged exactly when the existing value was already `"j"`. -/
theorem c1_amended (data : Record)
    (hax : dictContains data "PhaseEncodingAxis" = false)
    (hdir : dictContains data "PhaseEncodingDirection" = true) :
    dictGet (modify_phase data) "PhaseEncodingDirection" = some (JValue.jstr "j") ∧
    (modify_phase data = data ↔
      dictGet data "PhaseEncodingDirection" = some (JValue.jstr "j")) := by
  have hget : dictGet data "PhaseEncodingAxis" = none :=
    dictGet_eq_none_of_contains_false data "PhaseEncodingAxis" hax
  have hmp : modify_phase data = dictSet data "PhaseEncodingDirection" (JValue.jstr "j") := by
    unfold modify_phase
    rw [hget]
  rw [hmp]
  exact ⟨dictGet_dictSet_self data "PhaseEncodingDirection" (JValue.jstr "j"),
    dictSet_eq_self data "PhaseEncodingDirection" (JValue.jstr "j")⟩

/-- Claim C1, witness for the amended theorem at the record with
`PhaseEncodingDirection = "j"`. -/
theorem c1_witness :
    dictContains [("PhaseEncodingDirection", JValue.jstr "j")] "PhaseEncodingAxis" = false ∧
    dictContains [("PhaseEncodingDirection", JValue.jstr "j")] "PhaseEncodingDirection" = true ∧
    dictGet (modify_phase [("PhaseEncodingDirection", JValue.jstr "j")])
      "PhaseEncodingDirection" = some (JValue.jstr "j") ∧
    (modify_phase [("PhaseEncodingDirection", JValue.jstr "j")] =
        [("PhaseEncodingDirection", JValue.jstr "j")] ↔
      dictGet [("PhaseEncodingDirection", JValue.jstr "j")] "PhaseEncodingDirection" =
        some (JValue.jstr "j")) :=
  ⟨by decide, by decide,
    (c1_amended _ (by decide) (by decide)).1,
    (c1_amended _ (by decide) (by decide)).2⟩

/-- Claim C2, counterexample: `modify_phase` is not idempotent.  On the
record with `PhaseEncodingAxis = "i"`, one application yields
`PhaseEncodingDirection = "i"`, a second application overwrites it with
`"j"`. -/
theorem c2_counterexample :
    modify_phase (modify_phase [("PhaseEncodingAxis", JValue.jstr "i")]) ≠
      modify_phase [("PhaseEncodingAxis", JValue.jstr "i")] ∧
    dictGet (modify_phase [("PhaseEncodingAxis", JValue.jstr "i")])
      "PhaseEncodingDirection" = some (JValue.jstr "i") ∧
    dictGet (modify_phase (modify_phase [("PhaseEncodingAxis", JValue.jstr "i")]))
      "PhaseEncodingDirection" = some (JValue.jstr "j") := by
  decide

/-- Claim C2, amended: rules 2 and 3 are idempotent on every record; rule 1
is idempotent exactly on the records whose `PhaseEncodingAxis` field is
absent or holds the string `"j"`: whenever the axis holds any value `v`,
the first application moves `v` into `PhaseEncodingDirection` and the
second application overwrites the direction with `"j"`, so applying twice
differs from applying once unless `v = "j"`. -/
theorem c2_amended (data : Record) (sub : String) (h : RecordWF data) :
    modify_func_slice_timing (modify_func_slice_timing data sub) sub =
      modify_func_slice_timing data sub ∧
    modify_func_total_readout_time (modify_func_total_readout_time data sub) sub =
      modify_func_total_readout_time data sub ∧
    (∀ v : JValue, dictGet data "PhaseEncodingAxis" = some v →
      dictGet (modify_phase data) "PhaseEncodingDirection" = some v ∧
      dictGet (modify_phase (modify_phase data)) "PhaseEncodingDirection" =
        some (JValue.jstr "j")) ∧
    (modify_phase (modify_phase data) = modify_phase data ↔
      (dictGet data "PhaseEncodingAxis" = none ∨
        dictGet data "PhaseEncodingAxis" = some (JValue.jstr "j"))) := by
  have hne : "PhaseEncodingAxis" ≠ "PhaseEncodingDirection" := by decide
  have hne2 : "PhaseEncodingDirection" ≠ "PhaseEncodingAxis" := by decide
  refine ⟨?_, ?_, ?_, ?_⟩
  · by_cases hst : dictContains data "SliceTiming" = true
    · simp [modify_func_slice_timing, hst]
    · have h1 : modify_func_slice_timing data sub =
          dictSet data "SliceTiming" (JValue.jarr sliceTimingDefault) := by
        simp [modify_func_slice_timing, hst]
      rw [h1]
      simp [modify_func_slice_timing, dictContains_dictSet_self]
  · by_cases h1 : dictContains data "TotalReadoutTime" = true ∧
        dictGet data "TotalReadoutTime" = some (JValue.jnum 0.0377995)
    · simp [modify_func_total_readout_time, h1]
    · by_cases h2 : dictContains data "TotalReadoutTime" = false
      · have he : modify_func_total_readout_time data sub =
            dictSet data "TotalReadoutTime" (JValue.jnum 0.0377995) := by
          simp [modify_func_total_readout_time, h1, h2]
        rw [he]
        have hc := dictContains_dictSet_self data "TotalReadoutTime" (JValue.jnum 0.0377995)
        have hg := dictGet_dictSet_self data "TotalReadoutTime" (JValue.jnum 0.0377995)
        simp [modify_func_total_readout_time, hc, hg]
      · simp [modify_func_total_readout_time, h1, h2]
  · intro v hv
    have hwf : RecordWF (dictSet data "PhaseEncodingDirection" v) :=
      recordWF_dictSet data _ _ h
    have hmp := modify_phase_of_axis_some data v hv
    have hdir1 : dictGet (modify_phase data) "PhaseEncodingDirection" = some v := by
      rw [hmp, dictGet_dictDel_ne _ _ _ hne2, dictGet_dictSet_self]
    have hax1 : dictGet (modify_phase data) "PhaseEncodingAxis" = none := by
      rw [hmp]
      exact dictGet_dictDel_self _ _ hwf
    have hmp2 := modify_phase_of_axis_none (modify_phase data) hax1
    refine ⟨hdir1, ?_⟩
    rw [hmp2]
    exact dictGet_dictSet_self _ _ _
  · cases hax : dictGet data "PhaseEncodingAxis" with
    | none =>
      have hmp := modify_phase_of_axis_none data hax
      have hax1 : dictGet (modify_phase data) "PhaseEncodingAxis" = none := by
        rw [hmp, dictGet_dictSet_ne data _ _ _ hne, hax]
      have hmp2 := modify_phase_of_axis_none (modify_phase data) hax1
      constructor
      · intro _
        exact Or.inl rfl
      · intro _
        rw [hmp2, dictSet_eq_self, hmp]
        exact dictGet_dictSet_self _ _ _
    | some key =>
      have hwf : RecordWF (dictSet data "PhaseEncodingDirection" key) :=
        recordWF_dictSet data _ _ h
      have hmp := modify_phase_of_axis_some data key hax
      have hdir1 : dictGet (modify_phase data) "PhaseEncodingDirection" = some key := by
        rw [hmp, dictGet_dictDel_ne _ _ _ hne2, dictGet_dictSet_self]
      have hax1 : dictGet (modify_phase data) "PhaseEncodingAxis" = none := by
        rw [hmp]
        exact dictGet_dictDel_self _ _ hwf
      have hmp2 := modify_phase_of_axis_none (modify_phase data) hax1
      rw [hmp2, dictSet_eq_self, hdir1]
      simp

/-- Claim C2, witness for the amended theorem at the record with
`PhaseEncodingAxis = "j"`: rule 1 preserves the value, a second application
keeps `"j"`, the double application equals the single one, and rule 2 is
idempotent there. -/
theorem c2_witness :
    RecordWF [("PhaseEncodingAxis", JValue.jstr "j")] ∧
    dictGet [("PhaseEncodingAxis", JValue.jstr "j")] "PhaseEncodingAxis" =
      some (JValue.jstr "j") ∧
    dictGet (modify_phase [("PhaseEncodingAxis", JValue.jstr "j")])
      "PhaseEncodingDirection" = some (JValue.jstr "j") ∧
    modify_phase (modify_phase [("PhaseEncodingAxis", JValue.jstr "j")]) =
      modify_phase [("PhaseEncodingAxis", JValue.jstr "j")] ∧
    modify_func_slice_timing
        (modify_func_slice_timing [("PhaseEncodingAxis", JValue.jstr "j")] "sub-hc001")
        "sub-hc001" =
      modify_func_slice_timing [("PhaseEncodingAxis", JValue.jstr "j")] "sub-hc001" :=
  ⟨by decide, by decide,
    ((c2_amended _ "sub-hc001" (by decide)).2.2.1 (JValue.jstr "j") (by decide)).1,
    (c2_amended _ "sub-hc001" (by decide)).2.2.2.mpr (Or.inr (by decide)),
    (c2_amended _ "sub-hc001" (by decide)).1⟩

/-- Claim C3, counterexample: with naming spec `("sub-hc", 3, "")`, the name
`xsub-hc001y` is accepted by `meet_the_pattern` although it is not a full
match of the pattern (it only contains one as a substring), so full-match
semantics do not hold. -/
theorem c3_counterexample :
    meet_the_pattern (String.data "sub-hc") 3 [] (String.data "xsub-hc001y") = true ∧
    spec_full_match (String.data "sub-hc") 3 [] (String.data "xsub-hc001y") = false := by
  decide

/-- Claim C3, amended: the classifier accepts a name exactly when the name
contains, at some position, the prefix followed by exactly `d` decimal
digits followed by the suffix, possibly with extra characters before and
after (`re.search` semantics, not a full match). -/
theorem c3_amended (pre suf name : List Char) (d : Nat) :
    meet_the_pattern pre d suf name = true ↔
      ∃ a ds b, name = a ++ pre ++ ds ++ suf ++ b ∧ ds.length = d ∧
        ∀ c ∈ ds, c.isDigit = true := by
  unfold meet_the_pattern
  rw [searchFrom_eq_true]
  constructor
  · rintro ⟨a, r, rfl, hr⟩
    rw [matchHere_eq_true] at hr
    obtain ⟨s1, s2, b, h1, h2, h3⟩ := hr
    rw [dropLit_eq_some] at h1 h3
    rw [dropDigits_eq_some] at h2
    obtain ⟨ds, rfl, hlen, hdig⟩ := h2
    subst h1
    subst h3
    exact ⟨a, ds, b, by simp [List.append_assoc], hlen, hdig⟩
  · rintro ⟨a, ds, b, rfl, hlen, hdig⟩
    refine ⟨a, pre ++ (ds ++ (suf ++ b)), by simp [List.append_assoc], ?_⟩
    rw [matchHere_eq_true]
    refine ⟨ds ++ (suf ++ b), suf ++ b, b, ?_, ?_, ?_⟩
    · rw [dropLit_eq_some]
    · rw [dropDigits_eq_some]
      exact ⟨ds, rfl, hlen, hdig⟩
    · rw [dropLit_eq_some]

/-- Claim C4, counterexample: for slice count 50 the branch chain of
`execute_func_slicing` falls through silently; the subject is skipped with
no mutation but also with no report, contradicting the claimed report. -/
theorem c4_counterexample :
    sliceDecision (some 50) = SliceAction.silent ∧
    SliceAction.silent ≠ SliceAction.reportFailure ∧
    SliceAction.silent ≠ SliceAction.trim := by
  decide

/-- Claim C4, amended: slice count 38 gives a no-op with no tool invocation;
49 invokes the trimmer; a read failure, and also a count of 0 (Python
truthiness), are reported and skipped; any other count is skipped silently
with no mutation and no report; the loop processes every subject. -/
theorem c4_amended (counts : List (String × Option Nat)) :
    sliceDecision (some 38) = SliceAction.noop ∧
    sliceDecision (some 49) = SliceAction.trim ∧
    sliceDecision none = SliceAction.reportFailure ∧
    sliceDecision (some 0) = SliceAction.reportFailure ∧
    (∀ n : Nat, n ≠ 0 → n ≠ 38 → n ≠ 49 → sliceDecision (some n) = SliceAction.silent) ∧
    (execute_func_slicing counts).length = counts.length := by
  refine ⟨by decide, by decide, by decide, by decide, ?_, ?_⟩
  · intro n h0 h38 h49
    simp [sliceDecision, isFalsyCount, h0, h38, h49]
  · simp [execute_func_slicing]

/-- Claim C4, witness for the amended theorem at slice count 50. -/
theorem c4_witness :
    (50 : Nat) ≠ 0 ∧ (50 : Nat) ≠ 38 ∧ (50 : Nat) ≠ 49 ∧
    sliceDecision (some 50) = SliceAction.silent ∧
    (execute_func_slicing [("sub-hc001", some 50)]).length = 1 :=
  ⟨by decide, by decide, by decide,
    (c4_amended []).2.2.2.2.1 50 (by decide) (by decide) (by decide),
    (c4_amended [("sub-hc001", some 50)]).2.2.2.2.2⟩

/-- Claim C5, counterexample: a malformed descriptor file aborts both the
phase-encoding sweep and the enrichment pass: the parse error escapes and
the remaining well-formed file is never processed (the result is the error,
not a per-file report with continued processing). -/
theorem c5_counterexample :
    manipulate_phase_encoding [JsonFile.malformed "bad json", JsonFile.parsed []] =
      Except.error "bad json" ∧
    manipulate_anatfuncfmap "sub-hc001" [JsonFile.malformed "bad json", JsonFile.parsed []] =
      Except.error "bad json" :=
  ⟨rfl, rfl⟩

/-- Claim C5, amended: a parse failure on one descriptor file is not caught
at the orchestrator boundary: however many well-formed files precede the
malformed one, both sweeps end in the parse error and the files after it
are never processed. -/
theorem c5_amended (recs : List Record) (msg : String) (rest : List JsonFile) (sub : String) :
    manipulate_phase_encoding (recs.map JsonFile.parsed ++ JsonFile.malformed msg :: rest) =
      Except.error msg ∧
    manipulate_anatfuncfmap sub (recs.map JsonFile.parsed ++ JsonFile.malformed msg :: rest) =
      Except.error msg := by
  induction recs with
  | nil => exact ⟨rfl, rfl⟩
  | cons r rs ih =>
    constructor
    · simp only [List.map_cons, List.cons_append, manipulate_phase_encoding,
        processPhaseJson, load_json, List.append_eq, ih.1]
    · simp only [List.map_cons, List.cons_append, manipulate_anatfuncfmap,
        processFuncJson, load_json, List.append_eq, ih.2]

/-- Claim C6, counterexample: when the tool runs and exits with status 1,
`slice_func_49to38` does not fail: the `CalledProcessError` is caught
inside the method, which returns normally after printing the error. -/
theorem c6_counterexample :
    slice_func_49to38 { fslroi_on_path := true, tool_exit_code := 1 } =
      Except.ok { tool_invoked := true, error_printed := true } := by
  rfl

/-- Claim C6, amended: when `fslroi` is not resolvable on the search path,
`slice_func_49to38` raises before invoking the subprocess or touching any
file; when the tool exits non-zero the error is caught inside the
operation and reported, and the operation returns normally, propagating no
error and no exit status. -/
theorem c6_amended (env : TrimEnv) :
    (env.fslroi_on_path = false →
      slice_func_49to38 env =
        Except.error
          "Error: fslroi command not found. Ensure FSL is installed and added to PATH.") ∧
    (env.fslroi_on_path = true → env.tool_exit_code ≠ 0 →
      slice_func_49to38 env = Except.ok { tool_invoked := true, error_printed := true }) := by
  constructor
  · intro h
    simp [slice_func_49to38, h]
  · intro h hexit
    simp [slice_func_49to38, h, hexit]

/-- Claim C6, witness for the amended theorem: the missing-tool environment
and a failing-tool environment. -/
theorem c6_witness :
    slice_func_49to38 { fslroi_on_path := false, tool_exit_code := 0 } =
      Except.error
        "Error: fslroi command not found. Ensure FSL is installed and added to PATH." ∧
    slice_func_49to38 { fslroi_on_path := true, tool_exit_code := 2 } =
      Except.ok { tool_invoked := true, error_printed := true } :=
  ⟨(c6_amended _).1 rfl, (c6_amended _).2 rfl (by decide)⟩

/-- Claim C7: for a functional descriptor lacking `SliceTiming`, rule 2
sets `SliceTiming` to the fixed table, which has 38 strictly ascending
entries starting at 0 and ending at 2.415; a record that already has
`SliceTiming` is returned unchanged. -/
theorem c7_modify_func_slice_timing (data : Record) (sub : String) :
    (dictContains data "SliceTiming" = false →
      dictGet (modify_func_slice_timing data sub) "SliceTiming" =
        some (JValue.jarr sliceTimingDefault) ∧
      sliceTimingDefault.length = 38 ∧
      List.Chain' (· < ·) sliceTimingDefault ∧
      sliceTimingDefault.head? = some 0 ∧
      sliceTimingDefault.getLast? = some 2.415) ∧
    (dictContains data "SliceTiming" = true →
      modify_func_slice_timing data sub = data) := by
  constructor
  · intro h
    have h1 : modify_func_slice_timing data sub =
        dictSet data "SliceTiming" (JValue.jarr sliceTimingDefault) := by
      simp [modify_func_slice_timing, h]
    refine ⟨by rw [h1]; exact dictGet_dictSet_self data _ _, rfl, ?_, rfl, ?_⟩
    · norm_num [sliceTimingDefault, List.chain'_cons]
    · simp [sliceTimingDefault]
  · intro h
    simp [modify_func_slice_timing, h]

/-- Claim C7, witness: the empty record receives the table; a record that
already carries `SliceTiming` is unchanged. -/
theorem c7_witness :
    dictContains ([] : Record) "SliceTiming" = false ∧
    dictGet (modify_func_slice_timing [] "sub-hc001") "SliceTiming" =
      some (JValue.jarr sliceTimingDefault) ∧
    dictContains [("SliceTiming", JValue.jarr [])] "SliceTiming" = true ∧
    modify_func_slice_timing [("SliceTiming", JValue.jarr [])] "sub-hc001" =
      [("SliceTiming", JValue.jarr [])] :=
  ⟨by decide, ((c7_modify_func_slice_timing [] "sub-hc001").1 (by decide)).1,
    by decide, (c7_modify_func_slice_timing _ "sub-hc001").2 (by decide)⟩

/-- Claim C8: when `TotalReadoutTime` is absent, rule 3 sets it to exactly
`0.0377995`; when it is present, with that value or any other, the record
is returned unchanged. -/
theorem c8_modify_func_total_readout_time (data : Record) (sub : String) :
    (dictContains data "TotalReadoutTime" = false →
      modify_func_total_readout_time data sub =
        dictSet data "TotalReadoutTime" (JValue.jnum 0.0377995) ∧
      dictGet (modify_func_total_readout_time data sub) "TotalReadoutTime" =
        some (JValue.jnum 0.0377995)) ∧
    (dictContains data "TotalReadoutTime" = true →
      modify_func_total_readout_time data sub = data) := by
  constructor
  · intro h
    have he : modify_func_total_readout_time data sub =
        dictSet data "TotalReadoutTime" (JValue.jnum 0.0377995) := by
      simp [modify_func_total_readout_time, h]
    exact ⟨he, by rw [he]; exact dictGet_dictSet_self data _ _⟩
  · intro h
    by_cases hv : dictGet data "TotalReadoutTime" = some (JValue.jnum 0.0377995)
    · simp [modify_func_total_readout_time, h, hv]
    · simp [modify_func_total_readout_time, h, hv]

/-- Claim C8, witness: the empty record receives the value; a record with a
different present value is unchanged. -/
theorem c8_witness :
    dictContains ([] : Record) "TotalReadoutTime" = false ∧
    dictGet (modify_func_total_readout_time [] "sub-hc001") "TotalReadoutTime" =
      some (JValue.jnum 0.0377995) ∧
    dictContains [("TotalReadoutTime", JValue.jstr "x")] "TotalReadoutTime" = true ∧
    modify_func_total_readout_time [("TotalReadoutTime", JValue.jstr "x")] "sub-hc001" =
      [("TotalReadoutTime", JValue.jstr "x")] :=
  ⟨by decide, ((c8_modify_func_total_readout_time [] "sub-hc001").1 (by decide)).2,
    by decide, (c8_modify_func_total_readout_time _ "sub-hc001").2 (by decide)⟩

/-- Claim C9, counterexample: a functional-folder file whose name ends in
neither `.nii.gz` nor `.json` (here `notes.txt`) is not renamed at all by
the loop body, so not every file is renamed with its extension preserved. -/
theorem c9_counterexample :
    change_func_name (String.data "sub-hc001") taskRestBold (String.data "notes.txt") =
      none := by
  decide

/-- Claim C9, amended: a non-hidden file ending in `.nii.gz` is renamed to
`sub ++ name ++ ".nii.gz"`; a non-hidden file ending in `.json` but not
`.nii.gz` is renamed to `sub ++ name ++ ".json"`; every other file, and
every dot-file, is left untouched. -/
theorem c9_amended (sub name file : List Char) :
    (startsWithL (String.data ".") file = false →
      endsWithL (String.data ".nii.gz") file = true →
      change_func_name sub name file = some (sub ++ name ++ String.data ".nii.gz")) ∧
    (startsWithL (String.data ".") file = false →
      endsWithL (String.data ".nii.gz") file = false →
      endsWithL (String.data ".json") file = true →
      change_func_name sub name file = some (sub ++ name ++ String.data ".json")) ∧
    (endsWithL (String.data ".nii.gz") file = false →
      endsWithL (String.data ".json") file = false →
      change_func_name sub name file = none) ∧
    (startsWithL (String.data ".") file = true →
      change_func_name sub name file = none) := by
  refine ⟨?_, ?_, ?_, ?_⟩
  · intro h1 h2
    simp [change_func_name, h1, h2]
  · intro h1 h2 h3
    simp [change_func_name, h1, h2, h3]
  · intro h2 h3
    by_cases h1 : startsWithL (String.data ".") file = true
    · simp [change_func_name, h1]
    · simp [change_func_name, h1, h2, h3]
  · intro h1
    simp [change_func_name, h1]

/-- Claim C9, witness for the amended theorem on four concrete file
names. -/
theorem c9_witness :
    change_func_name (String.data "sub-hc001") taskRestBold (String.data "a.nii.gz") =
      some (String.data "sub-hc001" ++ taskRestBold ++ String.data ".nii.gz") ∧
    change_func_name (String.data "sub-hc001") taskRestBold (String.data "b.json") =
      some (String.data "sub-hc001" ++ taskRestBold ++ String.data ".json") ∧
    change_func_name (String.data "sub-hc001") taskRestBold (String.data "c.txt") = none ∧
    change_func_name (String.data "sub-hc001") taskRestBold (String.data ".hidden.json") =
      none :=
  ⟨(c9_amended _ _ _).1 (by decide) (by decide),
    (c9_amended _ _ _).2.1 (by decide) (by decide) (by decide),
    (c9_amended _ _ _).2.2.1 (by decide) (by decide),
    (c9_amended _ _ _).2.2.2 (by decide)⟩

/-- Claim C10: for every structurally valid record, the result of
`modify_phase` contains the key `PhaseEncodingDirection` and does not
contain the key `PhaseEncodingAxis`. -/
theorem c10_modify_phase_keys (data : Record) (h : RecordWF data) :
    dictContains (modify_phase data) "PhaseEncodingDirection" = true ∧
    dictContains (modify_phase data) "PhaseEncodingAxis" = false := by
  have hne : "PhaseEncodingAxis" ≠ "PhaseEncodingDirection" := by decide
  have hne2 : "PhaseEncodingDirection" ≠ "PhaseEncodingAxis" := by decide
  cases hax : dictGet data "PhaseEncodingAxis" with
  | none =>
    have hmp : modify_phase data =
        dictSet data "PhaseEncodingDirection" (JValue.jstr "j") := by
      unfold modify_phase
      rw [hax]
    rw [hmp]
    constructor
    · exact dictContains_dictSet_self data "PhaseEncodingDirection" (JValue.jstr "j")
    · rw [dictContains_eq_isSome, dictGet_dictSet_ne data _ _ _ hne, hax]
      rfl
  | some key =>
    have hmp : modify_phase data =
        dictDel (dictSet data "PhaseEncodingDirection" key) "PhaseEncodingAxis" := by
      unfold modify_phase
      rw [hax]
    rw [hmp]
    constructor
    · rw [dictContains_eq_isSome, dictGet_dictDel_ne _ _ _ hne2, dictGet_dictSet_self]
      rfl
    · rw [dictContains_eq_isSome,
        dictGet_dictDel_self _ _ (recordWF_dictSet data _ key h)]
      rfl

/-- Claim C10, witness at the record with `PhaseEncodingAxis = "i"`. -/
theorem c10_witness :
    RecordWF [("PhaseEncodingAxis", JValue.jstr "i")] ∧
    dictContains (modify_phase [("PhaseEncodingAxis", JValue.jstr "i")])
      "PhaseEncodingDirection" = true ∧
    dictContains (modify_phase [("PhaseEncodingAxis", JValue.jstr "i")])
      "PhaseEncodingAxis" = false :=
  ⟨by decide, (c10_modify_phase_keys _ (by decide)).1, (c10_modify_phase_keys _ (by decide)).2⟩
